import Mathlib

/-!
# Verification of the Langton's ant core (wr8fdy/langtons-ant)

Shallow embedding of the simulation core of the repository:
the pattern table (`Pattern` in `src/main.rs`, `AntPattern` in `src/hex.rs`),
the heading type and its rotations, the sparse tile grid, and the per-tick
step engine (`run_rotation` in `src/main.rs`; `ant_movement` chained with
`bricks_rotation` in `src/hex.rs`).

Modelling decisions:
* A `Color` (bevy `Color::srgb` with float channels, compared by exact
  equality and never NaN here since all channels are drawn from bounded
  ranges) is modelled as an opaque equality-comparable value, `Nat`.
* The thread-local RNG is modelled as an explicit stream `rng : Nat → Color`;
  `parse` draws `rng i` for the i-th character of the lowercased input,
  mirroring the source, which draws one random color per character
  (recognized or not) before matching it.
* Pixel positions (`f32` coordinates mutated by exactly plus or minus 20.0,
  hence exact in the reachable range) are modelled as `Int × Int`.
* ECS queries over tile entities are modelled as a `List Tile` in spawn
  order; the per-tile loops of `run_rotation` / `bricks_rotation` are folds
  over that list.
* Rust panics (`unwrap`, `panic!` in `next`, `todo!` in `ant_movement`)
  are modelled by returning `none`.
-/

/-- A marker color. In the source this is a bevy sRGB color with three
float channels compared by exact equality; only equality is ever used,
so it is modelled as an opaque equality-comparable value. -/
abbrev Color := Nat

/-- A painted grid cell: the entity's translation (x, y) and its current
color (a `Tile` sprite in `main.rs`, a `Brick` sprite in `hex.rs`). -/
structure Tile where
  pos : Int × Int
  color : Color
  deriving DecidableEq, Repr

/-- The pattern table: parallel vectors of colors and turn commands.
`src/main.rs` instantiates the turn type with `Turn`, `src/hex.rs`
with `PatternDirection`; both `first` and `next` are textually identical
in the two files, so they are defined once, generically. -/
structure PatternT (τ : Type) where
  colors : List Color
  turns : List τ
  deriving Repr

instance {τ : Type} [DecidableEq τ] : DecidableEq (PatternT τ) :=
  fun p q =>
    decidable_of_iff (p.colors = q.colors ∧ p.turns = q.turns)
      (by cases p; cases q; simp)

instance {ε α : Type} [DecidableEq ε] [DecidableEq α] : DecidableEq (Except ε α)
  | Except.ok a, Except.ok b => decidable_of_iff (a = b) (by simp)
  | Except.ok _, Except.error _ => Decidable.isFalse (by simp)
  | Except.error _, Except.ok _ => Decidable.isFalse (by simp)
  | Except.error e, Except.error f => decidable_of_iff (e = f) (by simp)

namespace PatternT

variable {τ : Type}

/-- `self.colors.iter().circular_tuple_windows::<(&Color, &Color)>()`:
the N cyclically adjacent pairs (colors[i], colors[(i+1) mod N]). -/
def circularPairs : List Color → List (Color × Color)
  | [] => []
  | c :: rest => List.zip (c :: rest) (rest ++ [c])

/-- The scan inside `next`: find the first window whose first color equals
`current`, returning the paired next color and turn; `none` models the
`panic!("can't find macthing color")` fall-through. -/
def lookup : List ((Color × Color) × τ) → Color → Option (Color × τ)
  | [], _ => none
  | ((c, c2), t) :: rest, current =>
    if c = current then some (c2, t) else lookup rest current

/-- `fn next(&self, current: Color) -> (Color, Turn)`
(`src/main.rs:115-127`, `src/hex.rs:91-103`). -/
def next (p : PatternT τ) (current : Color) : Option (Color × τ) :=
  lookup ((circularPairs p.colors).zip p.turns) current

/-- `fn first(&self) -> (Color, Turn)`: `(colors.get(1).unwrap(),
turns.first().unwrap())` (`src/main.rs:111-113`, `src/hex.rs:87-89`);
`none` models the `unwrap` panics. -/
def first (p : PatternT τ) : Option (Color × τ) :=
  match p.colors[1]?, p.turns.head? with
  | some c, some t => some (c, t)
  | _, _ => none

/-- The character loop shared by `Pattern::parse_pattern` and
`AntPattern::parse`: one random color is drawn for every character of the
lowercased input; a character recognized by `charFn` appends that color and
the mapped turn, any other character is skipped. `i` is the index of the
next character in the lowercased string (hence of its random draw). -/
def parseAux (charFn : Char → Option τ) (rng : Nat → Color) :
    Nat → List Char → PatternT τ → PatternT τ
  | _, [], acc => acc
  | i, c :: cs, acc =>
    let color := rng i
    match charFn c with
    | some t =>
      parseAux charFn rng (i + 1) cs ⟨acc.colors ++ [color], acc.turns ++ [t]⟩
    | none => parseAux charFn rng (i + 1) cs acc

end PatternT

/-- The colors a successful parse collects: the random draw of every
recognized character position, in order (specification-side companion of
`PatternT.parseAux`). -/
def parsedColors (charFn : Char → Option τ) (rng : Nat → Color) :
    Nat → List Char → List Color
  | _, [] => []
  | i, c :: cs =>
    if (charFn c).isSome then rng i :: parsedColors charFn rng (i + 1) cs
    else parsedColors charFn rng (i + 1) cs

namespace Main

/-- `enum Turn { Right, Left }` (`src/main.rs:65-69`). -/
inductive Turn
  | right
  | left
  deriving DecidableEq, Repr

/-- The `match p` arms of `Pattern::parse_pattern` (`src/main.rs:83-93`):
which characters are recognized, and the turn each one appends. -/
def charTurn : Char → Option Turn
  | 'r' => some Turn.right
  | 'l' => some Turn.left
  | _ => none

/-- `struct Pattern { colors: Vec<Color>, turns: Vec<Turn> }`. -/
abbrev Pattern := PatternT Turn

/-- `fn parse(pattern: String) -> Result<Self>` (`src/main.rs:97-109`):
run `parse_pattern` over the lowercased input starting from the empty
table, then fail if fewer than 2 entries were produced. -/
def Pattern.parse (rng : Nat → Color) (pattern : String) : Except String Pattern :=
  let s := PatternT.parseAux charTurn rng 0 (pattern.toList.map Char.toLower) ⟨[], []⟩
  if s.colors.length < 2 then
    Except.error "incorrect pattern: should be at least 2 correct values (L, R)"
  else
    Except.ok s

/-- `enum Direction { North, South, West, East }` (`src/main.rs:130-135`). -/
inductive Direction
  | north
  | south
  | west
  | east
  deriving DecidableEq, Repr

/-- The `Turn::Left` arm of `run_rotation` (`src/main.rs:207-215`). -/
def turnLeftDir : Direction → Direction
  | Direction.north => Direction.west
  | Direction.south => Direction.east
  | Direction.west => Direction.south
  | Direction.east => Direction.north

/-- The `Turn::Right` arm of `run_rotation` (`src/main.rs:216-224`). -/
def turnRightDir : Direction → Direction
  | Direction.north => Direction.east
  | Direction.south => Direction.west
  | Direction.west => Direction.north
  | Direction.east => Direction.south

/-- The `match next_turn` dispatch of `run_rotation` (`src/main.rs:206-225`). -/
def applyTurn : Turn → Direction → Direction
  | Turn.left, d => turnLeftDir d
  | Turn.right, d => turnRightDir d

/-- `const ANT_SPEED: f32 = 20.;` (`src/main.rs:15`). -/
def ANT_SPEED : Int := 20

/-- The final `match ant.0` of `run_rotation` (`src/main.rs:227-232`):
advance the translation one step in the current direction. -/
def moveDir : Direction → Int × Int → Int × Int
  | Direction.north, (x, y) => (x, y + ANT_SPEED)
  | Direction.south, (x, y) => (x, y - ANT_SPEED)
  | Direction.west, (x, y) => (x - ANT_SPEED, y)
  | Direction.east, (x, y) => (x + ANT_SPEED, y)

/-- The mutable state `run_rotation` reads and writes: the ant's direction
component, its translation, and the tile entities in spawn order. -/
structure World where
  dir : Direction
  pos : Int × Int
  tiles : List Tile
  deriving DecidableEq, Repr

end Main

/-- The `for (tile_transform, tile_color) in tile_query.iter_mut()` loop of
`run_rotation` (`src/main.rs:177-185`), also the identical brick loop of
`bricks_rotation` (`src/hex.rs:196-201`): every tile whose translation
equals the ant's has its color advanced by `next`, setting `flip_color`
and overwriting the pending turn; `none` models the panic inside `next`.
Returns the updated tiles, the final `flip_color`, and the final turn. -/
def tilesLoop (p : PatternT τ) (apos : Int × Int) :
    List Tile → Bool → τ → Option (List Tile × Bool × τ)
  | [], flip, nt => some ([], flip, nt)
  | t :: rest, flip, nt =>
    if t.pos = apos then
      match p.next t.color with
      | none => none
      | some (c2, nt2) =>
        match tilesLoop p apos rest true nt2 with
        | none => none
        | some (ts, f, n) => some (⟨t.pos, c2⟩ :: ts, f, n)
    else
      match tilesLoop p apos rest flip nt with
      | none => none
      | some (ts, f, n) => some (t :: ts, f, n)

namespace Main

/-- `fn run_rotation(..)` (`src/main.rs:164-233`), one `FixedUpdate` tick:
scan the tiles under the ant (advancing any match via `next`); if none
matched, take `first()` and spawn a tile at the ant's position; rotate the
ant by the resulting turn; finally move one step in the new direction.
`none` models the panics of `next` / the `unwrap`s of `first`. -/
def runRotation (p : Pattern) (w : World) : Option World :=
  match tilesLoop p w.pos w.tiles false Turn.left with
  | none => none
  | some (tiles1, flip, nt) =>
    let afterSpawn : Option (List Tile × Turn) :=
      if flip then some (tiles1, nt)
      else
        match p.first with
        | none => none
        | some (c, t) => some (tiles1 ++ [⟨w.pos, c⟩], t)
    match afterSpawn with
    | none => none
    | some (tiles2, turn) =>
      let d2 := applyTurn turn w.dir
      some ⟨d2, moveDir d2 w.pos, tiles2⟩

/-- `k` successive `FixedUpdate` ticks of `run_rotation`. -/
def stepN (p : Pattern) : Nat → World → Option World
  | 0, w => some w
  | k + 1, w =>
    match runRotation p w with
    | none => none
    | some w2 => stepN p k w2

/-- Modelled from the spec (§4.3): `G.get(coord) -> Marker | absent`,
reading the tile list as a sparse map keyed by coordinate. -/
def gridGet (tiles : List Tile) (coord : Int × Int) : Option Color :=
  (tiles.find? (fun t => t.pos = coord)).map Tile.color

/-- Modelled from the spec (§4.3): `G.set(coord, marker)`, inserts or
overwrites. -/
def gridSet (tiles : List Tile) (coord : Int × Int) (m : Color) : List Tile :=
  if tiles.any (fun t => t.pos = coord) then
    tiles.map (fun t => if t.pos = coord then ⟨coord, m⟩ else t)
  else
    tiles ++ [⟨coord, m⟩]

/-- Modelled from the spec (§4.4), the claimed per-tick contract, in the
claimed order: read (or create) the tile under the ant and advance its
marker, then rotate the heading by the obtained turn, then move one step
in the new heading. -/
def specTick (p : Pattern) (w : World) : Option World :=
  let entry :=
    match gridGet w.tiles w.pos with
    | some m => p.next m
    | none => p.first
  match entry with
  | none => none
  | some (m2, turn) =>
    let tiles2 := gridSet w.tiles w.pos m2
    let d2 := applyTurn turn w.dir
    some ⟨d2, moveDir d2 w.pos, tiles2⟩

end Main

/-- `tilesLoop` instrumented with its write trace: the list of
(coordinate, marker) overwrites the loop performs, in order. -/
def tilesLoopW (p : PatternT τ) (apos : Int × Int) :
    List Tile → Bool → τ →
      Option (List Tile × Bool × τ × List ((Int × Int) × Color))
  | [], flip, nt => some ([], flip, nt, [])
  | t :: rest, flip, nt =>
    if t.pos = apos then
      match p.next t.color with
      | none => none
      | some (c2, nt2) =>
        match tilesLoopW p apos rest true nt2 with
        | none => none
        | some (ts, f, n, ws) =>
          some (⟨t.pos, c2⟩ :: ts, f, n, (t.pos, c2) :: ws)
    else
      match tilesLoopW p apos rest flip nt with
      | none => none
      | some (ts, f, n, ws) => some (t :: ts, f, n, ws)

namespace Main

/-- `run_rotation` instrumented with its write trace: the (coordinate,
marker) pairs written into the grid during the tick (overwrites from the
tile loop, then the spawned tile if any). -/
def runRotationW (p : Pattern) (w : World) :
    Option (World × List ((Int × Int) × Color)) :=
  match tilesLoopW p w.pos w.tiles false Turn.left with
  | none => none
  | some (tiles1, flip, nt, ws) =>
    let afterSpawn : Option (List Tile × Turn × List ((Int × Int) × Color)) :=
      if flip then some (tiles1, nt, ws)
      else
        match p.first with
        | none => none
        | some (c, t) => some (tiles1 ++ [⟨w.pos, c⟩], t, ws ++ [(w.pos, c)])
    match afterSpawn with
    | none => none
    | some (tiles2, turn, ws2) =>
      let d2 := applyTurn turn w.dir
      some (⟨d2, moveDir d2 w.pos, tiles2⟩, ws2)

/-- `k` ticks of `run_rotation`, accumulating the full write trace. -/
def runW (p : Pattern) : Nat → World → Option (World × List ((Int × Int) × Color))
  | 0, w => some (w, [])
  | k + 1, w =>
    match runRotationW p w with
    | none => none
    | some (w2, ws) =>
      match runW p k w2 with
      | none => none
      | some (w3, ws2) => some (w3, ws ++ ws2)

end Main

namespace Hex

/-- `enum PatternDirection { R1, R2, L1, L2, Uturn, None }`
(`src/hex.rs:31-39`). -/
inductive PatternDirection
  | R1
  | R2
  | L1
  | L2
  | Uturn
  | None
  deriving DecidableEq, Repr

/-- The `match p` arms of `AntPattern::parse` (`src/hex.rs:59-77`):
which characters are recognized, and the pattern direction each appends. -/
def charDir : Char → Option PatternDirection
  | 'r' => some PatternDirection.R1
  | 'l' => some PatternDirection.L1
  | 'u' => some PatternDirection.Uturn
  | 'n' => some PatternDirection.None
  | _ => none

/-- `pub struct AntPattern { colors: Vec<Color>, turns: Vec<PatternDirection> }`. -/
abbrev AntPattern := PatternT PatternDirection

/-- `pub fn parse(pattern: String) -> Result<Self>` (`src/hex.rs:48-85`). -/
def AntPattern.parse (rng : Nat → Color) (pattern : String) :
    Except String AntPattern :=
  let s := PatternT.parseAux charDir rng 0 (pattern.toList.map Char.toLower) ⟨[], []⟩
  if s.colors.length < 2 then
    Except.error "incorrect pattern: should be at least 2 correct values (L, R, U, N)"
  else
    Except.ok s

/-- `enum AntDirection { Up, Down, Left, Right }` (`src/hex.rs:106-112`). -/
inductive AntDirection
  | up
  | down
  | left
  | right
  deriving DecidableEq, Repr

/-- `fn rotate_left(&mut self)` (`src/hex.rs:115-122`). -/
def rotateLeft : AntDirection → AntDirection
  | AntDirection.up => AntDirection.left
  | AntDirection.left => AntDirection.down
  | AntDirection.down => AntDirection.right
  | AntDirection.right => AntDirection.up

/-- `fn rotate_right(&mut self)` (`src/hex.rs:124-131`). -/
def rotateRight : AntDirection → AntDirection
  | AntDirection.up => AntDirection.right
  | AntDirection.left => AntDirection.up
  | AntDirection.down => AntDirection.left
  | AntDirection.right => AntDirection.down

/-- `fn rotate_back(&mut self)` (`src/hex.rs:133-140`). -/
def rotateBack : AntDirection → AntDirection
  | AntDirection.up => AntDirection.down
  | AntDirection.left => AntDirection.right
  | AntDirection.down => AntDirection.up
  | AntDirection.right => AntDirection.left

/-- The opposite compass direction (Up↔Down, Left↔Right); the
specification's notion a U-turn should realize. -/
def opposite : AntDirection → AntDirection
  | AntDirection.up => AntDirection.down
  | AntDirection.down => AntDirection.up
  | AntDirection.left => AntDirection.right
  | AntDirection.right => AntDirection.left

/-- The `match pattern_direction` dispatch of `ant_movement`
(`src/hex.rs:160-175`): how each pattern direction rotates the ant;
`none` models the `todo!()` of the `R2` / `L2` catch-all arm. -/
def applyPatternDirection (pd : PatternDirection) (d : AntDirection) :
    Option AntDirection :=
  match pd with
  | PatternDirection.R1 => some (rotateRight d)
  | PatternDirection.L1 => some (rotateLeft d)
  | PatternDirection.Uturn => some (rotateBack d)
  | PatternDirection.None => some d
  | _ => none

/-- `const ANT_SPEED: f32 = 20.;` (`src/hex.rs:6`). -/
def ANT_SPEED : Int := 20

/-- The final `match *ant_direction` of `ant_movement` (`src/hex.rs:177-182`). -/
def moveDir : AntDirection → Int × Int → Int × Int
  | AntDirection.up, (x, y) => (x, y + ANT_SPEED)
  | AntDirection.down, (x, y) => (x, y - ANT_SPEED)
  | AntDirection.left, (x, y) => (x - ANT_SPEED, y)
  | AntDirection.right, (x, y) => (x + ANT_SPEED, y)

/-- The mutable state of the hex variant: the ant entity's `AntDirection`
and `PatternDirection` components, its translation, and the brick
entities in spawn order. -/
structure HexWorld where
  ad : AntDirection
  pd : PatternDirection
  pos : Int × Int
  bricks : List Tile
  deriving DecidableEq, Repr

/-- `fn ant_movement(..)` (`src/hex.rs:157-183`): rotate the ant according
to its stored `PatternDirection` (`none` models the `todo!()` on `R2` /
`L2`), then move one step in the (new) direction. -/
def antMovement (w : HexWorld) : Option HexWorld :=
  match applyPatternDirection w.pd w.ad with
  | none => none
  | some d2 => some { w with ad := d2, pos := moveDir d2 w.pos }

/-- `fn bricks_rotation(..)` (`src/hex.rs:185-224`): scan the bricks under
the ant, advancing any match via `next` and storing the resulting turn in
the ant's `PatternDirection`; if none matched, store `first()`'s turn and
spawn a brick with `first()`'s color at the ant's position. -/
def bricksRotation (p : AntPattern) (w : HexWorld) : Option HexWorld :=
  match tilesLoop p w.pos w.bricks false w.pd with
  | none => none
  | some (bricks1, flip, pd1) =>
    if flip then some { w with pd := pd1, bricks := bricks1 }
    else
      match p.first with
      | none => none
      | some (c, d) =>
        some { w with pd := d, bricks := bricks1 ++ [⟨w.pos, c⟩] }

/-- One `FixedUpdate` tick of the hex variant: the chained systems
`(ant_movement, bricks_rotation).chain()` registered by `AntPlugin::build`
(`src/hex.rs:17-28`) — movement first, then the brick/grid update. -/
def hexTick (p : AntPattern) (w : HexWorld) : Option HexWorld :=
  match antMovement w with
  | none => none
  | some w2 => bricksRotation p w2

/-- `bricks_rotation` instrumented with its write trace: the (coordinate,
marker) pairs written into the grid (overwrites from the brick loop, then
the spawned brick if any). -/
def bricksRotationW (p : AntPattern) (w : HexWorld) :
    Option (HexWorld × List ((Int × Int) × Color)) :=
  match tilesLoopW p w.pos w.bricks false w.pd with
  | none => none
  | some (bricks1, flip, pd1, ws) =>
    if flip then some ({ w with pd := pd1, bricks := bricks1 }, ws)
    else
      match p.first with
      | none => none
      | some (c, d) =>
        some ({ w with pd := d, bricks := bricks1 ++ [⟨w.pos, c⟩] },
          ws ++ [(w.pos, c)])

/-- One hex tick instrumented with its write trace; `ant_movement` writes
nothing to the grid, so the tick's writes are those of `bricks_rotation`. -/
def hexTickW (p : AntPattern) (w : HexWorld) :
    Option (HexWorld × List ((Int × Int) × Color)) :=
  match antMovement w with
  | none => none
  | some w2 => bricksRotationW p w2

/-- `k` hex ticks, accumulating the full write trace. -/
def hexRunW (p : AntPattern) :
    Nat → HexWorld → Option (HexWorld × List ((Int × Int) × Color))
  | 0, w => some (w, [])
  | k + 1, w =>
    match hexTickW p w with
    | none => none
    | some (w2, ws) =>
      match hexRunW p k w2 with
      | none => none
      | some (w3, ws2) => some (w3, ws ++ ws2)

end Hex

/-! ## Lemmas about the cyclic pattern-table lookup -/

namespace PatternT

variable {τ : Type}

theorem circularPairs_length (cs : List Color) :
    (circularPairs cs).length = cs.length := by
  cases cs with
  | nil => rfl
  | cons c rest => simp [circularPairs]

theorem circularPairs_get (cs : List Color) (i : Nat) (h2 : i < cs.length)
    (h : i < (circularPairs cs).length)
    (h3 : (i + 1) % cs.length < cs.length) :
    (circularPairs cs).get ⟨i, h⟩ =
      (cs.get ⟨i, h2⟩, cs.get ⟨(i + 1) % cs.length, h3⟩) := by
  match cs with
  | [] => exact absurd h2 (by simp)
  | c :: rest =>
    have hr : (c :: rest).length = rest.length + 1 := by simp
    simp only [circularPairs, List.get_eq_getElem, List.getElem_zip, Prod.mk.injEq]
    refine ⟨trivial, ?_⟩
    by_cases hi : i < rest.length
    · have hmod : (i + 1) % (c :: rest).length = i + 1 :=
        Nat.mod_eq_of_lt (by omega)
      rw [List.getElem_append]
      rw [dif_pos hi]
      simp only [hmod, List.getElem_cons_succ]
    · have hie : i = rest.length := by
        simp only [hr] at h2
        omega
      have hmod : (i + 1) % (c :: rest).length = 0 := by
        rw [hie, hr]
        exact Nat.mod_self _
      rw [List.getElem_append]
      rw [dif_neg hi]
      simp only [hmod, List.getElem_cons_zero]
      simp [hie]

theorem circularPairs_mem_fst (cs : List Color) (x y : Color)
    (h : (x, y) ∈ circularPairs cs) : x ∈ cs := by
  cases cs with
  | nil => simp [circularPairs] at h
  | cons c rest => exact (List.of_mem_zip h).1

theorem circularPairs_mem_snd (cs : List Color) (x y : Color)
    (h : (x, y) ∈ circularPairs cs) : y ∈ cs := by
  cases cs with
  | nil => simp [circularPairs] at h
  | cons c rest =>
    have hy := (List.of_mem_zip h).2
    rw [List.mem_append] at hy
    rcases hy with hy | hy
    · exact List.mem_cons_of_mem _ hy
    · simp only [List.mem_singleton] at hy
      exact hy ▸ List.mem_cons_self _ _

theorem lookup_eq_none_iff (l : List ((Color × Color) × τ)) (cur : Color) :
    lookup l cur = none ↔ ∀ e ∈ l, e.1.1 ≠ cur := by
  induction l with
  | nil => simp [lookup]
  | cons e rest ih =>
    obtain ⟨⟨c, c2⟩, t⟩ := e
    by_cases hc : c = cur
    · subst hc
      simp [lookup]
    · simp [lookup, hc, ih]

theorem lookup_mem (l : List ((Color × Color) × τ)) (cur c2 : Color) (t : τ)
    (h : lookup l cur = some (c2, t)) :
    ∃ e ∈ l, e.1.1 = cur ∧ e.1.2 = c2 ∧ e.2 = t := by
  induction l with
  | nil => simp [lookup] at h
  | cons e rest ih =>
    obtain ⟨⟨a, b⟩, u⟩ := e
    by_cases hc : a = cur
    · simp only [lookup, if_pos hc, Option.some.injEq, Prod.mk.injEq] at h
      exact ⟨((a, b), u), List.mem_cons_self _ _, hc, h.1, h.2⟩
    · simp only [lookup, if_neg hc] at h
      obtain ⟨e, he, h1, h2, h3⟩ := ih h
      exact ⟨e, List.mem_cons_of_mem _ he, h1, h2, h3⟩

theorem lookup_found (cur : Color) (l : List ((Color × Color) × τ)) :
    ∀ (i : Nat) (hi : i < l.length),
      (∀ j (hj : j < l.length), j < i → (l.get ⟨j, hj⟩).1.1 ≠ cur) →
      (l.get ⟨i, hi⟩).1.1 = cur →
      lookup l cur = some ((l.get ⟨i, hi⟩).1.2, (l.get ⟨i, hi⟩).2) := by
  induction l with
  | nil => intro i hi; simp at hi
  | cons e rest ih =>
    intro i hi hb hcur
    obtain ⟨⟨c, c2⟩, t⟩ := e
    cases i with
    | zero =>
      simp only [List.get_eq_getElem, List.getElem_cons_zero] at hcur ⊢
      simp only [lookup, if_pos hcur]
    | succ i =>
      have hne : c ≠ cur := by
        have := hb 0 (by simp) (Nat.succ_pos i)
        simpa using this
      simp only [lookup, if_neg hne]
      have hi' : i < rest.length := by simpa using hi
      have hb' : ∀ j (hj : j < rest.length), j < i →
          (rest.get ⟨j, hj⟩).1.1 ≠ cur := by
        intro j hj hji
        have := hb (j + 1) (by simpa using Nat.succ_lt_succ hj)
          (Nat.succ_lt_succ hji)
        simpa using this
      have hcur' : (rest.get ⟨i, hi'⟩).1.1 = cur := by simpa using hcur
      have := ih i hi' hb' hcur'
      simpa using this

theorem next_found (p : PatternT τ) (hlen : p.turns.length = p.colors.length)
    (i : Nat) (hi : i < p.colors.length) (ht : i < p.turns.length)
    (h3 : (i + 1) % p.colors.length < p.colors.length)
    (hfst : ∀ j (hj : j < p.colors.length), j < i →
      p.colors.get ⟨j, hj⟩ ≠ p.colors.get ⟨i, hi⟩) :
    p.next (p.colors.get ⟨i, hi⟩) =
      some (p.colors.get ⟨(i + 1) % p.colors.length, h3⟩, p.turns.get ⟨i, ht⟩) := by
  have hzl : ((circularPairs p.colors).zip p.turns).length = p.colors.length := by
    simp [List.length_zip, circularPairs_length, hlen]
  have hi' : i < ((circularPairs p.colors).zip p.turns).length := by omega
  have hget : ∀ (j : Nat) (hj : j < ((circularPairs p.colors).zip p.turns).length)
      (hjc : j < p.colors.length)
      (hjm : (j + 1) % p.colors.length < p.colors.length)
      (hjt : j < p.turns.length),
      ((circularPairs p.colors).zip p.turns).get ⟨j, hj⟩ =
        ((p.colors.get ⟨j, hjc⟩, p.colors.get ⟨(j + 1) % p.colors.length, hjm⟩),
         p.turns.get ⟨j, hjt⟩) := by
    intro j hj hjc hjm hjt
    have hjp : j < (circularPairs p.colors).length := by
      rw [circularPairs_length]; exact hjc
    simp only [List.get_eq_getElem, List.getElem_zip]
    have := circularPairs_get p.colors j hjc hjp hjm
    simp only [List.get_eq_getElem] at this
    rw [this]
  unfold next
  rw [lookup_found (p.colors.get ⟨i, hi⟩) _ i hi'
    (by
      intro j hj hji
      have hjc : j < p.colors.length := by omega
      have hjm : (j + 1) % p.colors.length < p.colors.length :=
        Nat.mod_lt _ (by omega)
      have hjt : j < p.turns.length := by omega
      rw [hget j hj hjc hjm hjt]
      exact hfst j hjc hji)
    (by rw [hget i hi' hi h3 ht])]
  rw [hget i hi' hi h3 ht]

theorem next_eq_none_of_not_mem (p : PatternT τ) (cur : Color)
    (h : cur ∉ p.colors) : p.next cur = none := by
  unfold next
  rw [lookup_eq_none_iff]
  intro e he
  obtain ⟨⟨c, c2⟩, t⟩ := e
  have hz := List.of_mem_zip he
  have hc : c ∈ p.colors := circularPairs_mem_fst p.colors c c2 hz.1
  intro hcc
  exact h (hcc ▸ hc)

theorem next_isSome_of_mem (p : PatternT τ)
    (hlen : p.turns.length = p.colors.length) (cur : Color)
    (h : cur ∈ p.colors) : p.next cur ≠ none := by
  obtain ⟨⟨i, hi⟩, hget⟩ := List.mem_iff_get.mp h
  have hzl : ((circularPairs p.colors).zip p.turns).length = p.colors.length := by
    simp [List.length_zip, circularPairs_length, hlen]
  unfold next
  rw [Ne, lookup_eq_none_iff]
  intro hall
  have hi' : i < ((circularPairs p.colors).zip p.turns).length := by omega
  have hmem := List.get_mem ((circularPairs p.colors).zip p.turns) i hi'
  have heq : (((circularPairs p.colors).zip p.turns).get ⟨i, hi'⟩).1.1 = cur := by
    have hjp : i < (circularPairs p.colors).length := by
      rw [circularPairs_length]; exact hi
    have hjm : (i + 1) % p.colors.length < p.colors.length :=
      Nat.mod_lt _ (by omega)
    simp only [List.get_eq_getElem, List.getElem_zip]
    have := circularPairs_get p.colors i hi hjp hjm
    simp only [List.get_eq_getElem] at this
    rw [this]
    simpa using hget
  exact hall _ hmem heq

theorem next_mem (p : PatternT τ) (cur c2 : Color) (t : τ)
    (h : p.next cur = some (c2, t)) : c2 ∈ p.colors ∧ t ∈ p.turns := by
  obtain ⟨e, he, h1, h2, h3⟩ := lookup_mem _ _ _ _ h
  obtain ⟨⟨a, b⟩, u⟩ := e
  have hz := List.of_mem_zip he
  simp only at h2 h3
  constructor
  · exact h2 ▸ circularPairs_mem_snd p.colors a b hz.1
  · exact h3 ▸ hz.2

theorem first_eq (p : PatternT τ) (h1 : 1 < p.colors.length)
    (h0 : 0 < p.turns.length) :
    p.first = some (p.colors.get ⟨1, h1⟩, p.turns.get ⟨0, h0⟩) := by
  unfold first
  have hc : p.colors[1]? = some (p.colors.get ⟨1, h1⟩) := by
    rw [List.getElem?_eq_getElem h1]
    rfl
  have ht : p.turns.head? = some (p.turns.get ⟨0, h0⟩) := by
    rw [List.head?_eq_getElem?, List.getElem?_eq_getElem h0]
    rfl
  rw [hc, ht]

end PatternT

/-! ## Lemmas about parsing -/

theorem parseAux_eq {τ : Type} (charFn : Char → Option τ) (rng : Nat → Color) :
    ∀ (cs : List Char) (i : Nat) (acc : PatternT τ),
      PatternT.parseAux charFn rng i cs acc =
        ⟨acc.colors ++ parsedColors charFn rng i cs,
         acc.turns ++ cs.filterMap charFn⟩ := by
  intro cs
  induction cs with
  | nil =>
    intro i acc
    simp [PatternT.parseAux, parsedColors]
  | cons c cs ih =>
    intro i acc
    cases hc : charFn c with
    | some t =>
      simp only [PatternT.parseAux, hc, parsedColors, ih, Option.isSome_some,
        if_true, List.filterMap_cons_some hc]
      simp
    | none =>
      simp only [PatternT.parseAux, hc, parsedColors, ih, Option.isSome_none,
        Bool.false_eq_true, if_false, List.filterMap_cons_none hc]

theorem parsedColors_length {τ : Type} (charFn : Char → Option τ)
    (rng : Nat → Color) :
    ∀ (cs : List Char) (i : Nat),
      (parsedColors charFn rng i cs).length = (cs.filterMap charFn).length := by
  intro cs
  induction cs with
  | nil => intro i; simp [parsedColors]
  | cons c cs ih =>
    intro i
    cases hc : charFn c with
    | some t =>
      simp [parsedColors, hc, List.filterMap_cons_some hc, ih]
    | none =>
      simp [parsedColors, hc, List.filterMap_cons_none hc, ih]

theorem Main.pattern_parse_eq (rng : Nat → Color) (pattern : String) :
    Pattern.parse rng pattern =
      if 2 ≤ ((pattern.toList.map Char.toLower).filterMap charTurn).length then
        Except.ok ⟨parsedColors charTurn rng 0 (pattern.toList.map Char.toLower),
                   (pattern.toList.map Char.toLower).filterMap charTurn⟩
      else
        Except.error "incorrect pattern: should be at least 2 correct values (L, R)" := by
  unfold Pattern.parse
  rw [parseAux_eq]
  simp only [List.nil_append]
  by_cases h : 2 ≤ ((pattern.toList.map Char.toLower).filterMap charTurn).length
  · rw [if_neg (by rw [parsedColors_length]; omega), if_pos h]
  · rw [if_pos (by rw [parsedColors_length]; omega), if_neg h]

theorem Hex.ant_pattern_parse_eq (rng : Nat → Color) (pattern : String) :
    AntPattern.parse rng pattern =
      if 2 ≤ ((pattern.toList.map Char.toLower).filterMap charDir).length then
        Except.ok ⟨parsedColors charDir rng 0 (pattern.toList.map Char.toLower),
                   (pattern.toList.map Char.toLower).filterMap charDir⟩
      else
        Except.error "incorrect pattern: should be at least 2 correct values (L, R, U, N)" := by
  unfold AntPattern.parse
  rw [parseAux_eq]
  simp only [List.nil_append]
  by_cases h : 2 ≤ ((pattern.toList.map Char.toLower).filterMap charDir).length
  · rw [if_neg (by rw [parsedColors_length]; omega), if_pos h]
  · rw [if_pos (by rw [parsedColors_length]; omega), if_neg h]

theorem Main.pattern_parse_ok_facts (rng : Nat → Color) (pattern : String)
    (p : Pattern) (h : Pattern.parse rng pattern = Except.ok p) :
    2 ≤ p.colors.length ∧ p.turns.length = p.colors.length := by
  rw [pattern_parse_eq] at h
  by_cases hc : 2 ≤ ((pattern.toList.map Char.toLower).filterMap charTurn).length
  · rw [if_pos hc] at h
    injection h with h
    subst h
    exact ⟨by simpa [parsedColors_length] using hc, by simp [parsedColors_length]⟩
  · rw [if_neg hc] at h
    exact absurd h (by simp)

theorem Hex.ant_pattern_parse_ok_facts (rng : Nat → Color) (pattern : String)
    (p : AntPattern) (h : AntPattern.parse rng pattern = Except.ok p) :
    2 ≤ p.colors.length ∧ p.turns.length = p.colors.length ∧
      p.turns = (pattern.toList.map Char.toLower).filterMap charDir := by
  rw [ant_pattern_parse_eq] at h
  by_cases hc : 2 ≤ ((pattern.toList.map Char.toLower).filterMap charDir).length
  · rw [if_pos hc] at h
    injection h with h
    subst h
    exact ⟨by simpa [parsedColors_length] using hc,
      by simp [parsedColors_length], by simp⟩
  · rw [if_neg hc] at h
    exact absurd h (by simp)

/-! ## Lemmas about the per-tick tile loop -/

theorem tilesLoop_map_pos {τ : Type} (p : PatternT τ) (apos : Int × Int) :
    ∀ (ts : List Tile) (flip : Bool) (nt : τ) (ts2 : List Tile) (f : Bool) (n : τ),
      tilesLoop p apos ts flip nt = some (ts2, f, n) →
      ts2.map Tile.pos = ts.map Tile.pos := by
  intro ts
  induction ts with
  | nil =>
    intro flip nt ts2 f n h
    simp only [tilesLoop, Option.some.injEq, Prod.mk.injEq] at h
    rw [← h.1]
  | cons t rest ih =>
    intro flip nt ts2 f n h
    by_cases hp : t.pos = apos
    · cases hn : p.next t.color with
      | none => simp [tilesLoop, if_pos hp, hn] at h
      | some r =>
        obtain ⟨c2, nt2⟩ := r
        cases hrec : tilesLoop p apos rest true nt2 with
        | none => simp [tilesLoop, if_pos hp, hn, hrec] at h
        | some r2 =>
          obtain ⟨ts3, f3, n3⟩ := r2
          simp only [tilesLoop, if_pos hp, hn, hrec, Option.some.injEq,
            Prod.mk.injEq] at h
          rw [← h.1]
          simp [ih true nt2 ts3 f3 n3 hrec]
    · cases hrec : tilesLoop p apos rest flip nt with
      | none => simp [tilesLoop, if_neg hp, hrec] at h
      | some r2 =>
        obtain ⟨ts3, f3, n3⟩ := r2
        simp only [tilesLoop, if_neg hp, hrec, Option.some.injEq,
          Prod.mk.injEq] at h
        rw [← h.1]
        simp [ih flip nt ts3 f3 n3 hrec]

theorem tilesLoop_no_match {τ : Type} (p : PatternT τ) (apos : Int × Int) :
    ∀ (ts : List Tile), (∀ t ∈ ts, t.pos ≠ apos) → ∀ (flip : Bool) (nt : τ),
      tilesLoop p apos ts flip nt = some (ts, flip, nt) := by
  intro ts
  induction ts with
  | nil => intro _ flip nt; rfl
  | cons t rest ih =>
    intro h flip nt
    have ht : t.pos ≠ apos := h t (List.mem_cons_self _ _)
    have hrest : ∀ u ∈ rest, u.pos ≠ apos :=
      fun u hu => h u (List.mem_cons_of_mem _ hu)
    simp only [tilesLoop, if_neg ht, ih hrest flip nt]

theorem tilesLoop_find {τ : Type} (p : PatternT τ) (apos : Int × Int) :
    ∀ (ts : List Tile), (ts.map Tile.pos).Nodup → ∀ (flip : Bool) (nt : τ),
      tilesLoop p apos ts flip nt =
        match ts.find? (fun t => t.pos = apos) with
        | none => some (ts, flip, nt)
        | some t =>
          match p.next t.color with
          | none => none
          | some (c2, nt2) =>
            some (ts.map (fun u => if u.pos = apos then ⟨apos, c2⟩ else u),
              true, nt2) := by
  intro ts
  induction ts with
  | nil => intro _ flip nt; rfl
  | cons t rest ih =>
    intro hnd flip nt
    rw [List.map_cons, List.nodup_cons] at hnd
    obtain ⟨hnotin, hndrest⟩ := hnd
    by_cases hp : t.pos = apos
    · have hfind : (t :: rest).find? (fun t => t.pos = apos) = some t := by
        apply List.find?_cons_of_pos
        simp [hp]
      rw [hfind]
      have hrest : ∀ u ∈ rest, u.pos ≠ apos := by
        intro u hu hua
        exact hnotin (hp ▸ hua ▸ List.mem_map_of_mem Tile.pos hu)
      cases hn : p.next t.color with
      | none => simp [tilesLoop, if_pos hp, hn]
      | some r =>
        obtain ⟨c2, nt2⟩ := r
        have hmap : rest.map
            (fun u => if u.pos = apos then (⟨apos, c2⟩ : Tile) else u) = rest := by
          have hcongr : ∀ u ∈ rest,
              (if u.pos = apos then (⟨apos, c2⟩ : Tile) else u) = id u := by
            intro u hu
            simp [hrest u hu]
          rw [List.map_congr_left hcongr, List.map_id]
        simp [tilesLoop, if_pos hp, hn,
          tilesLoop_no_match p apos rest hrest true nt2, hmap, hp]
    · have hfind : (t :: rest).find? (fun u => u.pos = apos) =
          rest.find? (fun u => u.pos = apos) := by
        apply List.find?_cons_of_neg
        simp [hp]
      rw [hfind]
      simp only [tilesLoop, if_neg hp]
      rw [ih hndrest flip nt]
      cases hfr : rest.find? (fun u => u.pos = apos) with
      | none => rfl
      | some u =>
        cases hn : p.next u.color with
        | none => simp [hn]
        | some r =>
          obtain ⟨c2, nt2⟩ := r
          simp [hn, List.map_cons, if_neg hp]

theorem tilesLoop_total {τ : Type} (p : PatternT τ)
    (hlen : p.turns.length = p.colors.length) (apos : Int × Int) :
    ∀ (ts : List Tile), (∀ t ∈ ts, t.color ∈ p.colors) → ∀ (flip : Bool) (nt : τ),
      ∃ ts2 f n, tilesLoop p apos ts flip nt = some (ts2, f, n) ∧
        ∀ t ∈ ts2, t.color ∈ p.colors := by
  intro ts
  induction ts with
  | nil =>
    intro _ flip nt
    exact ⟨[], flip, nt, rfl, by simp⟩
  | cons t rest ih =>
    intro hc flip nt
    have htc : t.color ∈ p.colors := hc t (List.mem_cons_self _ _)
    have hrest : ∀ u ∈ rest, u.color ∈ p.colors :=
      fun u hu => hc u (List.mem_cons_of_mem _ hu)
    by_cases hp : t.pos = apos
    · cases hn : p.next t.color with
      | none => exact absurd hn (PatternT.next_isSome_of_mem p hlen t.color htc)
      | some r =>
        obtain ⟨c2, nt2⟩ := r
        obtain ⟨ts2, f, n, hrec, hmem⟩ := ih hrest true nt2
        refine ⟨⟨t.pos, c2⟩ :: ts2, f, n, ?_, ?_⟩
        · simp only [tilesLoop, if_pos hp, hn, hrec]
        · intro u hu
          rcases List.mem_cons.mp hu with hu | hu
          · subst hu
            exact (PatternT.next_mem p t.color c2 nt2 hn).1
          · exact hmem u hu
    · obtain ⟨ts2, f, n, hrec, hmem⟩ := ih hrest flip nt
      refine ⟨t :: ts2, f, n, ?_, ?_⟩
      · simp only [tilesLoop, if_neg hp, hrec]
      · intro u hu
        rcases List.mem_cons.mp hu with hu | hu
        · subst hu; exact htc
        · exact hmem u hu

theorem tilesLoop_turn_origin {τ : Type} (p : PatternT τ) (apos : Int × Int) :
    ∀ (ts : List Tile) (flip : Bool) (nt : τ) (ts2 : List Tile) (f : Bool) (n : τ),
      tilesLoop p apos ts flip nt = some (ts2, f, n) →
      n = nt ∨ n ∈ p.turns := by
  intro ts
  induction ts with
  | nil =>
    intro flip nt ts2 f n h
    simp only [tilesLoop, Option.some.injEq, Prod.mk.injEq] at h
    exact Or.inl h.2.2.symm
  | cons t rest ih =>
    intro flip nt ts2 f n h
    by_cases hp : t.pos = apos
    · cases hn : p.next t.color with
      | none => simp [tilesLoop, if_pos hp, hn] at h
      | some r =>
        obtain ⟨c2, nt2⟩ := r
        cases hrec : tilesLoop p apos rest true nt2 with
        | none => simp [tilesLoop, if_pos hp, hn, hrec] at h
        | some r2 =>
          obtain ⟨ts3, f3, n3⟩ := r2
          simp only [tilesLoop, if_pos hp, hn, hrec, Option.some.injEq,
            Prod.mk.injEq] at h
          have hn3 : n = n3 := h.2.2.symm
          rcases ih true nt2 ts3 f3 n3 hrec with heq | hmem
          · exact Or.inr (hn3 ▸ heq ▸ (PatternT.next_mem p t.color c2 nt2 hn).2)
          · exact Or.inr (hn3 ▸ hmem)
    · cases hrec : tilesLoop p apos rest flip nt with
      | none => simp [tilesLoop, if_neg hp, hrec] at h
      | some r2 =>
        obtain ⟨ts3, f3, n3⟩ := r2
        simp only [tilesLoop, if_neg hp, hrec, Option.some.injEq,
          Prod.mk.injEq] at h
        exact h.2.2 ▸ ih flip nt ts3 f3 n3 hrec

/-! ## Engine-level lemmas -/

theorem PatternT.first_mem {τ : Type} (p : PatternT τ) (c : Color) (t : τ)
    (h : p.first = some (c, t)) : c ∈ p.colors ∧ t ∈ p.turns := by
  unfold first at h
  cases hc : p.colors[1]? with
  | none => rw [hc] at h; cases p.turns.head? <;> simp at h
  | some c1 =>
    cases hh : p.turns.head? with
    | none => rw [hc, hh] at h; simp at h
    | some t1 =>
      rw [hc, hh] at h
      simp only [Option.some.injEq, Prod.mk.injEq] at h
      refine ⟨h.1 ▸ ?_, h.2 ▸ ?_⟩
      · exact List.getElem?_mem hc
      · exact List.mem_of_mem_head? hh

theorem Main.runRotation_eq_specTick (p : Pattern) (w : World)
    (hnd : (w.tiles.map Tile.pos).Nodup) :
    runRotation p w = specTick p w := by
  unfold runRotation specTick gridGet gridSet
  rw [tilesLoop_find p w.pos w.tiles hnd false Turn.left]
  cases hf : w.tiles.find? (fun t => t.pos = w.pos) with
  | none =>
    have hnotin : ∀ x ∈ w.tiles, ¬x.pos = w.pos := by
      intro x hx
      have := List.find?_eq_none.mp hf x hx
      simpa using this
    have hany : w.tiles.any (fun t => t.pos = w.pos) = false := by
      simp only [List.any_eq_false]
      intro x hx
      simpa using hnotin x hx
    cases hfirst : p.first with
    | none => simp [hfirst]
    | some r =>
      obtain ⟨c, t⟩ := r
      simp [hfirst, hany]
  | some t =>
    have hmem := List.mem_of_find?_eq_some hf
    have hpt : t.pos = w.pos := by simpa using List.find?_some hf
    have hany : w.tiles.any (fun u => u.pos = w.pos) = true := by
      simp only [List.any_eq_true]
      exact ⟨t, hmem, by simpa using hpt⟩
    cases hn : p.next t.color with
    | none => simp [hn]
    | some r =>
      obtain ⟨c2, nt2⟩ := r
      simp [hn, hany]

theorem Main.runRotation_nodup (p : Pattern) (w w2 : World)
    (hnd : (w.tiles.map Tile.pos).Nodup) (h : runRotation p w = some w2) :
    (w2.tiles.map Tile.pos).Nodup := by
  unfold runRotation at h
  rw [tilesLoop_find p w.pos w.tiles hnd false Turn.left] at h
  cases hf : w.tiles.find? (fun t => t.pos = w.pos) with
  | none =>
    simp only [hf] at h
    cases hfirst : p.first with
    | none => simp [hfirst] at h
    | some r =>
      obtain ⟨c, t⟩ := r
      simp only [hfirst, if_false, Bool.false_eq_true, Option.some.injEq] at h
      have hnotin : w.pos ∉ w.tiles.map Tile.pos := by
        intro hin
        obtain ⟨x, hx, hxe⟩ := List.mem_map.mp hin
        have := List.find?_eq_none.mp hf x hx
        simp [hxe] at this
      rw [← h]
      simp [List.nodup_append, hnd, hnotin]
  | some t =>
    simp only [hf] at h
    cases hn : p.next t.color with
    | none => simp [hn] at h
    | some r =>
      obtain ⟨c2, nt2⟩ := r
      simp only [hn, if_true, Option.some.injEq] at h
      have hmap : (w.tiles.map
          (fun u => if u.pos = w.pos then (⟨w.pos, c2⟩ : Tile) else u)).map Tile.pos =
          w.tiles.map Tile.pos := by
        rw [List.map_map]
        apply List.map_congr_left
        intro u hu
        by_cases hup : u.pos = w.pos
        · simp [Function.comp, hup]
        · simp [Function.comp, hup]
      rw [← h]
      simpa [hmap] using hnd

theorem Main.runRotation_total (p : Pattern) (hN : 2 ≤ p.colors.length)
    (hlen : p.turns.length = p.colors.length) (w : World)
    (hc : ∀ t ∈ w.tiles, t.color ∈ p.colors) :
    ∃ w2, runRotation p w = some w2 ∧ ∀ t ∈ w2.tiles, t.color ∈ p.colors := by
  obtain ⟨ts2, f, n, hloop, hmem⟩ :=
    tilesLoop_total p hlen w.pos w.tiles hc false Turn.left
  have h1 : 1 < p.colors.length := by omega
  have h0 : 0 < p.turns.length := by omega
  have hfirst := PatternT.first_eq p h1 h0
  unfold runRotation
  rw [hloop]
  cases f with
  | true => exact ⟨_, rfl, hmem⟩
  | false =>
    rw [hfirst]
    refine ⟨_, rfl, ?_⟩
    intro t ht
    rcases List.mem_append.mp ht with ht | ht
    · exact hmem t ht
    · rw [List.mem_singleton.mp ht]
      exact List.get_mem p.colors 1 h1

theorem Main.stepN_total (p : Pattern) (hN : 2 ≤ p.colors.length)
    (hlen : p.turns.length = p.colors.length) :
    ∀ (k : Nat) (w : World), (∀ t ∈ w.tiles, t.color ∈ p.colors) →
      ∃ w2, stepN p k w = some w2 ∧ ∀ t ∈ w2.tiles, t.color ∈ p.colors := by
  intro k
  induction k with
  | zero => intro w hc; exact ⟨w, rfl, hc⟩
  | succ k ih =>
    intro w hc
    obtain ⟨w2, hw2, hc2⟩ := runRotation_total p hN hlen w hc
    obtain ⟨w3, hw3, hc3⟩ := ih w2 hc2
    refine ⟨w3, ?_, hc3⟩
    simp only [stepN, hw2, hw3]

theorem Main.runRotation_mono (p : Pattern) (w w2 : World)
    (h : runRotation p w = some w2) (c : Int × Int)
    (hc : c ∈ w.tiles.map Tile.pos) : c ∈ w2.tiles.map Tile.pos := by
  unfold runRotation at h
  cases hloop : tilesLoop p w.pos w.tiles false Turn.left with
  | none => simp [hloop] at h
  | some r =>
    obtain ⟨ts1, flip, nt⟩ := r
    simp only [hloop] at h
    have hpos := tilesLoop_map_pos p w.pos w.tiles false Turn.left ts1 flip nt hloop
    cases flip with
    | true =>
      simp only [if_true, Option.some.injEq] at h
      rw [← h]
      simpa [hpos] using hc
    | false =>
      cases hfirst : p.first with
      | none => simp [hfirst] at h
      | some r2 =>
        obtain ⟨cc, t⟩ := r2
        simp only [hfirst, if_false, Bool.false_eq_true, Option.some.injEq] at h
        rw [← h]
        simp only [List.map_append]
        exact List.mem_append_left _ (hpos ▸ hc)

theorem Hex.bricksRotation_mono (p : AntPattern) (w w2 : HexWorld)
    (h : bricksRotation p w = some w2) (c : Int × Int)
    (hc : c ∈ w.bricks.map Tile.pos) : c ∈ w2.bricks.map Tile.pos := by
  unfold bricksRotation at h
  cases hloop : tilesLoop p w.pos w.bricks false w.pd with
  | none => simp [hloop] at h
  | some r =>
    obtain ⟨bs1, flip, pd1⟩ := r
    simp only [hloop] at h
    have hpos := tilesLoop_map_pos p w.pos w.bricks false w.pd bs1 flip pd1 hloop
    cases flip with
    | true =>
      simp only [if_true, Option.some.injEq] at h
      rw [← h]
      simpa [hpos] using hc
    | false =>
      cases hfirst : p.first with
      | none => simp [hfirst] at h
      | some r2 =>
        obtain ⟨cc, d⟩ := r2
        simp only [hfirst, if_false, Bool.false_eq_true, Option.some.injEq] at h
        rw [← h]
        simp only [List.map_append]
        exact List.mem_append_left _ (hpos ▸ hc)

theorem Hex.bricksRotation_pd (p : AntPattern) (w w2 : HexWorld)
    (h : bricksRotation p w = some w2) :
    w2.pd = w.pd ∨ w2.pd ∈ p.turns := by
  unfold bricksRotation at h
  cases hloop : tilesLoop p w.pos w.bricks false w.pd with
  | none => simp [hloop] at h
  | some r =>
    obtain ⟨bs1, flip, pd1⟩ := r
    simp only [hloop] at h
    cases flip with
    | true =>
      simp only [if_true, Option.some.injEq] at h
      have := tilesLoop_turn_origin p w.pos w.bricks false w.pd bs1 true pd1 hloop
      rw [← h]
      simpa using this
    | false =>
      cases hfirst : p.first with
      | none => simp [hfirst] at h
      | some r2 =>
        obtain ⟨cc, d⟩ := r2
        simp only [hfirst, if_false, Bool.false_eq_true, Option.some.injEq] at h
        rw [← h]
        exact Or.inr (by simpa using (PatternT.first_mem p cc d hfirst).2)

/-! ## Claim theorems -/

/-- C1 (counterexample): in the hex variant one `FixedUpdate` tick runs
`ant_movement` before `bricks_rotation` (the chain registered by
`AntPlugin::build`), so from the initial state (ant at the origin, heading
Up, stored turn `None`, no bricks) the tick first moves the ant to (0, 20)
without consulting the grid and only then creates a tile — at (0, 20),
not at the ant's pre-tick coordinate (0, 0), and the heading never turns
during the tick although `firstEntry()`'s turn is `R1`. This refutes the
claimed within-tick order "grid update at the current coordinate, then
rotate, then move" for the hex step engine, with a table produced by
`parse` on the pattern string "rl". -/
theorem claim_C1_counterexample :
    Hex.AntPattern.parse (fun i => i) "rl" =
      Except.ok ⟨[0, 1], [Hex.PatternDirection.R1, Hex.PatternDirection.L1]⟩ ∧
    Hex.hexTick ⟨[0, 1], [Hex.PatternDirection.R1, Hex.PatternDirection.L1]⟩
        ⟨Hex.AntDirection.up, Hex.PatternDirection.None, (0, 0), []⟩ =
      some ⟨Hex.AntDirection.up, Hex.PatternDirection.R1, (0, 20),
        [⟨(0, 20), 1⟩]⟩ ∧
    (0, 0) ∉ ([⟨(0, 20), (1 : Color)⟩] : List Tile).map Tile.pos :=
  ⟨by decide, by decide, by decide⟩

/-- C1 (amended): for the main step engine `run_rotation`, on any world
whose tiles occupy pairwise distinct coordinates (the invariant the engine
maintains), one tick behaves exactly as the claim states, in the claimed
order: it equals the specification step `specTick`, which reads (or
creates) the tile under the ant via `next` / `first`, writes the new
marker at that coordinate, then rotates the heading by the obtained turn,
then moves one step in the new heading; and the distinct-coordinate
invariant is preserved.  (The hex variant instead moves by the previously
stored turn first and updates the grid at the new coordinate afterwards —
see the counterexample.) -/
theorem claim_C1_tick_order (p : Main.Pattern) (w : Main.World)
    (hnd : (w.tiles.map Tile.pos).Nodup) :
    Main.runRotation p w = Main.specTick p w ∧
      ∀ w2, Main.runRotation p w = some w2 → (w2.tiles.map Tile.pos).Nodup :=
  ⟨Main.runRotation_eq_specTick p w hnd,
   fun w2 h => Main.runRotation_nodup p w w2 hnd h⟩

/-- C1 (witness): the amended theorem applied to a concrete pattern and a
world with one tile under the ant. -/
theorem claim_C1_tick_order_witness :
    (((⟨Main.Direction.north, (0, 0), [⟨(0, 0), 0⟩]⟩ :
        Main.World).tiles.map Tile.pos).Nodup) ∧
    Main.runRotation ⟨[0, 1], [Main.Turn.right, Main.Turn.left]⟩
        ⟨Main.Direction.north, (0, 0), [⟨(0, 0), 0⟩]⟩ =
      Main.specTick ⟨[0, 1], [Main.Turn.right, Main.Turn.left]⟩
        ⟨Main.Direction.north, (0, 0), [⟨(0, 0), 0⟩]⟩ :=
  ⟨by decide,
   (claim_C1_tick_order ⟨[0, 1], [Main.Turn.right, Main.Turn.left]⟩
     ⟨Main.Direction.north, (0, 0), [⟨(0, 0), 0⟩]⟩ (by decide)).1⟩

/-- C2 (counterexample): markers are random and need not be distinct, and
`parse` can genuinely produce a duplicate (here with a color stream that
repeats): for the parsed table with colors [0, 0] and turns
[Right, Left], taking i = 1 the claim predicts
`next(colors[1]) = (colors[(1+1) mod 2], turns[1]) = (0, Left)`, but the
scan returns the first match, `(colors[1], turns[0]) = (0, Right)`. -/
theorem claim_C2_counterexample :
    Main.Pattern.parse (fun _ => 0) "rl" =
      Except.ok ⟨[0, 0], [Main.Turn.right, Main.Turn.left]⟩ ∧
    PatternT.next (⟨[0, 0], [Main.Turn.right, Main.Turn.left]⟩ : Main.Pattern) 0 =
      some (0, Main.Turn.right) ∧
    some ((0 : Color), Main.Turn.right) ≠ some ((0 : Color), Main.Turn.left) :=
  ⟨by decide, by decide, by decide⟩

/-- C2 (amended): for every pattern table with as many turns as colors and
every index i at which the marker occurs for the first time (in
particular, for every index whenever the markers are pairwise distinct),
`next` on that marker returns the cyclically next marker
`colors[(i+1) mod N]` paired with `turns[i]`.  This covers both variants,
since `Pattern::next` and `AntPattern::next` are the same generic
function. -/
theorem claim_C2_next_cyclic (τ : Type) (p : PatternT τ)
    (hlen : p.turns.length = p.colors.length) (i : Nat)
    (hi : i < p.colors.length) (ht : i < p.turns.length)
    (h3 : (i + 1) % p.colors.length < p.colors.length)
    (hfst : ∀ j (hj : j < p.colors.length), j < i →
      p.colors.get ⟨j, hj⟩ ≠ p.colors.get ⟨i, hi⟩) :
    p.next (p.colors.get ⟨i, hi⟩) =
      some (p.colors.get ⟨(i + 1) % p.colors.length, h3⟩, p.turns.get ⟨i, ht⟩) :=
  PatternT.next_found p hlen i hi ht h3 hfst

/-- C2 (witness): the amended theorem applied at i = 1 of a distinct-marker
table, exercising the cyclic wraparound. -/
theorem claim_C2_next_cyclic_witness :
    PatternT.next (⟨[3, 7], [Main.Turn.right, Main.Turn.left]⟩ : Main.Pattern) 7 =
      some (3, Main.Turn.left) := by
  have h := claim_C2_next_cyclic Main.Turn
    ⟨[3, 7], [Main.Turn.right, Main.Turn.left]⟩ (by decide) 1 (by decide)
    (by decide) (by decide) (by decide)
  simpa using h

/-- C3: both `Pattern::parse` and `AntPattern::parse` lowercase the input,
silently skip every unrecognized character, append one (random marker,
turn) entry per recognized character, succeed with a table of exactly the
recognized entries when at least 2 characters were recognized, and fail
with the invalid-pattern error otherwise. -/
theorem claim_C3_parse_characterization (rng : Nat → Color) (s : String) :
    (Main.Pattern.parse rng s =
      if 2 ≤ ((s.toList.map Char.toLower).filterMap Main.charTurn).length then
        Except.ok ⟨parsedColors Main.charTurn rng 0 (s.toList.map Char.toLower),
          (s.toList.map Char.toLower).filterMap Main.charTurn⟩
      else
        Except.error "incorrect pattern: should be at least 2 correct values (L, R)") ∧
    (parsedColors Main.charTurn rng 0 (s.toList.map Char.toLower)).length =
      ((s.toList.map Char.toLower).filterMap Main.charTurn).length ∧
    (Hex.AntPattern.parse rng s =
      if 2 ≤ ((s.toList.map Char.toLower).filterMap Hex.charDir).length then
        Except.ok ⟨parsedColors Hex.charDir rng 0 (s.toList.map Char.toLower),
          (s.toList.map Char.toLower).filterMap Hex.charDir⟩
      else
        Except.error "incorrect pattern: should be at least 2 correct values (L, R, U, N)") ∧
    (parsedColors Hex.charDir rng 0 (s.toList.map Char.toLower)).length =
      ((s.toList.map Char.toLower).filterMap Hex.charDir).length :=
  ⟨Main.pattern_parse_eq rng s, parsedColors_length Main.charTurn rng _ 0,
   Hex.ant_pattern_parse_eq rng s, parsedColors_length Hex.charDir rng _ 0⟩

/-- C4: for every successfully parsed table (of either variant,
independently, so N ≥ 2), `first()` returns the marker at index 1 paired
with the turn at index 0 — the documented off-by-one. -/
theorem claim_C4_first_off_by_one :
    (∀ (rng : Nat → Color) (s : String) (p : Main.Pattern),
      Main.Pattern.parse rng s = Except.ok p →
      ∃ (h1 : 1 < p.colors.length) (h0 : 0 < p.turns.length),
        p.first = some (p.colors.get ⟨1, h1⟩, p.turns.get ⟨0, h0⟩)) ∧
    (∀ (rng : Nat → Color) (s : String) (q : Hex.AntPattern),
      Hex.AntPattern.parse rng s = Except.ok q →
      ∃ (g1 : 1 < q.colors.length) (g0 : 0 < q.turns.length),
        q.first = some (q.colors.get ⟨1, g1⟩, q.turns.get ⟨0, g0⟩)) := by
  constructor
  · intro rng s p hp
    obtain ⟨hN, hlen⟩ := Main.pattern_parse_ok_facts rng s p hp
    exact ⟨by omega, by omega, PatternT.first_eq p (by omega) (by omega)⟩
  · intro rng s q hq
    obtain ⟨gN, glen, -⟩ := Hex.ant_pattern_parse_ok_facts rng s q hq
    exact ⟨by omega, by omega, PatternT.first_eq q (by omega) (by omega)⟩

/-- C4 (witness): on the main pattern "rl" and the hex-only pattern "ru"
(parsed with color stream 0, 1, ...), the first entry is (marker at
index 1, turn at index 0). -/
theorem claim_C4_first_off_by_one_witness :
    PatternT.first (⟨[0, 1], [Main.Turn.right, Main.Turn.left]⟩ : Main.Pattern) =
      some (1, Main.Turn.right) ∧
    PatternT.first (⟨[0, 1],
        [Hex.PatternDirection.R1, Hex.PatternDirection.Uturn]⟩ : Hex.AntPattern) =
      some (1, Hex.PatternDirection.R1) := by
  obtain ⟨h1, h0, hm⟩ := claim_C4_first_off_by_one.1 (fun i => i) "rl"
    ⟨[0, 1], [Main.Turn.right, Main.Turn.left]⟩ (by decide)
  obtain ⟨g1, g0, hh⟩ := claim_C4_first_off_by_one.2 (fun i => i) "ru"
    ⟨[0, 1], [Hex.PatternDirection.R1, Hex.PatternDirection.Uturn]⟩ (by decide)
  exact ⟨by simpa using hm, by simpa using hh⟩

/-- C5: the heading transitions follow exactly the fixed 4-state tables
(with the hex variant's Up/Down/Left/Right read as North/South/West/East):
left turn maps North→West→South→East→North, right turn maps
North→East→South→West→North, in both `run_rotation`'s match arms and the
`AntDirection` rotations; `Uturn` maps every heading to its opposite, and
`None` leaves the heading unchanged. -/
theorem claim_C5_heading_transition_tables :
    (Main.turnLeftDir Main.Direction.north = Main.Direction.west ∧
     Main.turnLeftDir Main.Direction.west = Main.Direction.south ∧
     Main.turnLeftDir Main.Direction.south = Main.Direction.east ∧
     Main.turnLeftDir Main.Direction.east = Main.Direction.north) ∧
    (Main.turnRightDir Main.Direction.north = Main.Direction.east ∧
     Main.turnRightDir Main.Direction.east = Main.Direction.south ∧
     Main.turnRightDir Main.Direction.south = Main.Direction.west ∧
     Main.turnRightDir Main.Direction.west = Main.Direction.north) ∧
    (Hex.rotateLeft Hex.AntDirection.up = Hex.AntDirection.left ∧
     Hex.rotateLeft Hex.AntDirection.left = Hex.AntDirection.down ∧
     Hex.rotateLeft Hex.AntDirection.down = Hex.AntDirection.right ∧
     Hex.rotateLeft Hex.AntDirection.right = Hex.AntDirection.up) ∧
    (Hex.rotateRight Hex.AntDirection.up = Hex.AntDirection.right ∧
     Hex.rotateRight Hex.AntDirection.right = Hex.AntDirection.down ∧
     Hex.rotateRight Hex.AntDirection.down = Hex.AntDirection.left ∧
     Hex.rotateRight Hex.AntDirection.left = Hex.AntDirection.up) ∧
    (∀ d : Hex.AntDirection,
      Hex.applyPatternDirection Hex.PatternDirection.Uturn d =
        some (Hex.opposite d)) ∧
    (∀ d : Hex.AntDirection,
      Hex.applyPatternDirection Hex.PatternDirection.None d = some d) := by
  refine ⟨⟨rfl, rfl, rfl, rfl⟩, ⟨rfl, rfl, rfl, rfl⟩, ⟨rfl, rfl, rfl, rfl⟩,
    ⟨rfl, rfl, rfl, rfl⟩, ?_, ?_⟩ <;> intro d <;> cases d <;> rfl

/-- C6: calling `next` with a marker equal to no table entry is the fatal
`panic!` branch (modelled as `none`); and under correct operation — every
grid marker was written by the step engine from this table, i.e. all tile
colors belong to the table — any number of engine ticks succeeds and keeps
all tile colors in the table, so that branch is never reached. -/
theorem claim_C6_unmatched_marker_safety :
    (∀ (τ : Type) (p : PatternT τ) (cur : Color),
      cur ∉ p.colors → p.next cur = none) ∧
    (∀ (p : Main.Pattern) (k : Nat) (w : Main.World),
      2 ≤ p.colors.length → p.turns.length = p.colors.length →
      (∀ t ∈ w.tiles, t.color ∈ p.colors) →
      ∃ w2, Main.stepN p k w = some w2 ∧ ∀ t ∈ w2.tiles, t.color ∈ p.colors) :=
  ⟨fun _ p cur h => PatternT.next_eq_none_of_not_mem p cur h,
   fun p k w hN hlen hc => Main.stepN_total p hN hlen k w hc⟩

/-- C6 (witness): `next` on a foreign marker is the panic branch, and two
ticks from the empty grid never reach it. -/
theorem claim_C6_unmatched_marker_safety_witness :
    PatternT.next (⟨[1, 2], [Main.Turn.right, Main.Turn.left]⟩ : Main.Pattern) 5 =
      none ∧
    Main.stepN ⟨[1, 2], [Main.Turn.right, Main.Turn.left]⟩ 2
      ⟨Main.Direction.north, (0, 0), []⟩ ≠ none := by
  constructor
  · exact claim_C6_unmatched_marker_safety.1 Main.Turn
      ⟨[1, 2], [Main.Turn.right, Main.Turn.left]⟩ 5 (by decide)
  · obtain ⟨w2, hw2, -⟩ := claim_C6_unmatched_marker_safety.2
      ⟨[1, 2], [Main.Turn.right, Main.Turn.left]⟩ 2
      ⟨Main.Direction.north, (0, 0), []⟩ (by decide) (by decide) (by simp)
    exact fun hnone => Option.noConfusion (hw2.symm.trans hnone)

/-- C7: the step engines of both variants are deterministic — two runs of
K ticks from the same pattern and initial state produce the same write
trace (the (coordinate, marker) pairs written into the grid, in order)
and the same final world, for the main `run_rotation` runner and for the
hex `ant_movement` + `bricks_rotation` tick runner; in the embedding each
tick is a pure function of the pattern and the world, so any two results
of the same run coincide. -/
theorem claim_C7_deterministic :
    (∀ (p : Main.Pattern) (w : Main.World) (k : Nat)
      (r1 r2 : Option (Main.World × List ((Int × Int) × Color))),
      Main.runW p k w = r1 → Main.runW p k w = r2 → r1 = r2) ∧
    (∀ (p : Hex.AntPattern) (w : Hex.HexWorld) (k : Nat)
      (r1 r2 : Option (Hex.HexWorld × List ((Int × Int) × Color))),
      Hex.hexRunW p k w = r1 → Hex.hexRunW p k w = r2 → r1 = r2) :=
  ⟨fun _ _ _ _ _ h1 h2 => h1.symm.trans h2,
   fun _ _ _ _ _ h1 h2 => h1.symm.trans h2⟩

/-- C7 (witness): two ticks of the "rl"-style table from the origin,
evaluated in both variants: the main trace paints (0, 0) then (20, 0)
and ends at (20, -20) heading south; the hex trace paints (0, 20) then
(20, 20) and ends at (20, 20) heading right. -/
theorem claim_C7_deterministic_witness :
    Main.runW ⟨[0, 1], [Main.Turn.right, Main.Turn.left]⟩ 2
        ⟨Main.Direction.north, (0, 0), []⟩ =
      some (⟨Main.Direction.south, (20, -20), [⟨(0, 0), 1⟩, ⟨(20, 0), 1⟩]⟩,
        [((0, 0), 1), ((20, 0), 1)]) ∧
    Hex.hexRunW ⟨[0, 1], [Hex.PatternDirection.R1, Hex.PatternDirection.L1]⟩ 2
        ⟨Hex.AntDirection.up, Hex.PatternDirection.None, (0, 0), []⟩ =
      some (⟨Hex.AntDirection.right, Hex.PatternDirection.R1, (20, 20),
        [⟨(0, 20), 1⟩, ⟨(20, 20), 1⟩]⟩, [((0, 20), 1), ((20, 20), 1)]) :=
  ⟨claim_C7_deterministic.1 ⟨[0, 1], [Main.Turn.right, Main.Turn.left]⟩
     ⟨Main.Direction.north, (0, 0), []⟩ 2 _ _ rfl (by decide),
   claim_C7_deterministic.2
     ⟨[0, 1], [Hex.PatternDirection.R1, Hex.PatternDirection.L1]⟩
     ⟨Hex.AntDirection.up, Hex.PatternDirection.None, (0, 0), []⟩ 2 _ _ rfl
     (by decide)⟩

/-- C8: grid monotonicity — a coordinate holding a tile before a tick of
`run_rotation` (resp. of the hex `bricks_rotation`) still holds a tile
afterwards: the loops only recolor tiles in place and the spawn only adds
a tile, so the set of painted coordinates never shrinks. -/
theorem claim_C8_grid_monotonic :
    (∀ (p : Main.Pattern) (w w2 : Main.World),
      Main.runRotation p w = some w2 →
      ∀ c ∈ w.tiles.map Tile.pos, c ∈ w2.tiles.map Tile.pos) ∧
    (∀ (p : Hex.AntPattern) (w w2 : Hex.HexWorld),
      Hex.bricksRotation p w = some w2 →
      ∀ c ∈ w.bricks.map Tile.pos, c ∈ w2.bricks.map Tile.pos) :=
  ⟨fun p w w2 h c hc => Main.runRotation_mono p w w2 h c hc,
   fun p w w2 h c hc => Hex.bricksRotation_mono p w w2 h c hc⟩

/-- C8 (witness): a tick that revisits the only painted tile keeps its
coordinate painted. -/
theorem claim_C8_grid_monotonic_witness :
    (0, 0) ∈ ([⟨(0, 0), (1 : Color)⟩] : List Tile).map Tile.pos :=
  claim_C8_grid_monotonic.1 ⟨[0, 1], [Main.Turn.right, Main.Turn.left]⟩
    ⟨Main.Direction.north, (0, 0), [⟨(0, 0), 0⟩]⟩
    ⟨Main.Direction.east, (20, 0), [⟨(0, 0), 1⟩]⟩ (by decide) (0, 0) (by decide)

/-- C9: rotation algebra — a U-turn twice is the identity, `None` applied
twice equals `None` applied once, and a left turn followed by a right turn
(or vice versa) restores the heading, in both variants. -/
theorem claim_C9_rotation_algebra :
    (∀ d : Hex.AntDirection,
      Hex.rotateBack (Hex.rotateBack d) = d ∧
      Hex.rotateRight (Hex.rotateLeft d) = d ∧
      Hex.rotateLeft (Hex.rotateRight d) = d ∧
      (Hex.applyPatternDirection Hex.PatternDirection.Uturn d).bind
        (Hex.applyPatternDirection Hex.PatternDirection.Uturn) = some d ∧
      (Hex.applyPatternDirection Hex.PatternDirection.None d).bind
        (Hex.applyPatternDirection Hex.PatternDirection.None) =
        Hex.applyPatternDirection Hex.PatternDirection.None d) ∧
    (∀ d : Main.Direction,
      Main.turnRightDir (Main.turnLeftDir d) = d ∧
      Main.turnLeftDir (Main.turnRightDir d) = d) := by
  constructor
  · intro d; cases d <;> exact ⟨rfl, rfl, rfl, rfl, rfl⟩
  · intro d; cases d <;> exact ⟨rfl, rfl⟩

/-- C10: `AntPattern::parse` only ever emits the turn commands R1, L1,
Uturn and None (never R2 or L2); every ant whose stored turn is one of
those never hits the `todo!()` catch-all of `ant_movement`; and the turn
stored by `bricks_rotation` always comes from the table (or is left
unchanged), so a pattern direction originating from a parsed table keeps
`ant_movement` panic-free. -/
theorem claim_C10_no_todo_panic :
    (∀ (rng : Nat → Color) (s : String) (q : Hex.AntPattern),
      Hex.AntPattern.parse rng s = Except.ok q →
      ∀ t ∈ q.turns, t = Hex.PatternDirection.R1 ∨ t = Hex.PatternDirection.L1 ∨
        t = Hex.PatternDirection.Uturn ∨ t = Hex.PatternDirection.None) ∧
    (∀ (w : Hex.HexWorld),
      (w.pd = Hex.PatternDirection.R1 ∨ w.pd = Hex.PatternDirection.L1 ∨
        w.pd = Hex.PatternDirection.Uturn ∨ w.pd = Hex.PatternDirection.None) →
      Hex.antMovement w ≠ none) ∧
    (∀ (p : Hex.AntPattern) (w w2 : Hex.HexWorld),
      Hex.bricksRotation p w = some w2 → w2.pd = w.pd ∨ w2.pd ∈ p.turns) := by
  refine ⟨?_, ?_, ?_⟩
  · intro rng s q hq t ht
    obtain ⟨-, -, hturns⟩ := Hex.ant_pattern_parse_ok_facts rng s q hq
    rw [hturns] at ht
    obtain ⟨c, hc, hct⟩ := List.mem_filterMap.mp ht
    unfold Hex.charDir at hct
    split at hct <;> simp_all
  · intro w hw
    rcases hw with h | h | h | h <;>
      simp [Hex.antMovement, Hex.applyPatternDirection, h]
  · exact Hex.bricksRotation_pd

/-- C10 (witness): a parsed table's turns avoid R2/L2, a stored R1 moves
without aborting, and the turn stored by a brick update comes from the
table. -/
theorem claim_C10_no_todo_panic_witness :
    Hex.antMovement ⟨Hex.AntDirection.up, Hex.PatternDirection.R1, (0, 0), []⟩ ≠
      none ∧
    (Hex.PatternDirection.L1 = Hex.PatternDirection.R1 ∨
     Hex.PatternDirection.L1 = Hex.PatternDirection.L1 ∨
     Hex.PatternDirection.L1 = Hex.PatternDirection.Uturn ∨
     Hex.PatternDirection.L1 = Hex.PatternDirection.None) ∧
    (Hex.PatternDirection.R1 = Hex.PatternDirection.None ∨
     Hex.PatternDirection.R1 ∈
       [Hex.PatternDirection.R1, Hex.PatternDirection.L1]) := by
  refine ⟨?_, ?_, ?_⟩
  · exact claim_C10_no_todo_panic.2.1
      ⟨Hex.AntDirection.up, Hex.PatternDirection.R1, (0, 0), []⟩ (Or.inl rfl)
  · exact claim_C10_no_todo_panic.1 (fun i => i) "rl"
      ⟨[0, 1], [Hex.PatternDirection.R1, Hex.PatternDirection.L1]⟩ (by decide)
      Hex.PatternDirection.L1 (by decide)
  · exact claim_C10_no_todo_panic.2.2
      ⟨[0, 1], [Hex.PatternDirection.R1, Hex.PatternDirection.L1]⟩
      ⟨Hex.AntDirection.up, Hex.PatternDirection.None, (0, 0), []⟩
      ⟨Hex.AntDirection.up, Hex.PatternDirection.R1, (0, 0), [⟨(0, 0), 1⟩]⟩
      (by decide)
